import Mathlib

/-!
# Verification of the llvm-statepoint-utils core

Shallow embedding of the two core components of the repository:

* `src/src/hash_table.c` — the return-address-keyed frame table
  (`hashFn`, `computeBucketIndex`, `new_table`, `insert_key`,
  `lookup_return_address`, `print_table`, `print_frame`);
* the stack-map decoder (`generate_frame_info`, `next_callsite`,
  `generate_table`).

Modelling conventions:

* Machine integers are `Nat` with explicit `% 2^w` wherever the width
  is observable: the hash mix and pointer alignment wrap mod `2^64`,
  the bucket entry counter (a `uint16_t`) wraps mod `2^16`, and the
  decoder's visited-callsite counter (a `uint32_t`) wraps mod `2^32`.
  Quantities whose overflow is unreachable from any modelled state
  (the `size_t` byte totals of buckets holding at most `2^16` records)
  are plain `Nat`.
* A bucket's concatenated byte buffer of variable-length records is
  modelled as the list of records it holds, together with the two
  bookkeeping fields the C struct carries (`numEntries`,
  `sizeOfEntries`).
* Fallible code (`assert` / `exit(EXIT_FAILURE)`) returns `Option`:
  `none` is the process abort.
* The decoder's reads of the location array are modelled against the
  sequence of `value_location_t`-typed records reachable from the
  array's start (field `mem` below), indexed exactly as the C pointer
  arithmetic indexes them.  Reads beyond the supplied memory are `none`.
-/

namespace SPUtil

/-! ## Data model -/

/-- The C struct `pointer_slot_t`: `kind : int32_t` (−1 = base pointer, `k ≥ 0` =
derived from slot `k`), `offset : int32_t`. -/
structure PointerSlot where
  kind : Int
  offset : Int
deriving DecidableEq, Repr, Inhabited

/-- The C struct `frame_info_t`: return address key, frame size, slot count, and the
inline array of pointer slots. -/
structure FrameInfo where
  retAddr : Nat
  frameSize : Nat
  numSlots : Nat
  slots : List PointerSlot
deriving DecidableEq, Repr, Inhabited

/-- Modelled from the spec: the byte size of one variable-length
`frame_info_t` record (`frame_size` / `size_of_frame` live in the
repository's `hash_table.h`, which is not under `src/`).  Per the §3
data model the record is a 24-byte header (`retAddr : u64`,
`frameSize : u64`, `numSlots : u16` plus padding) followed by
`numSlots` 8-byte slots. -/
def frame_size (f : FrameInfo) : Nat := 24 + 8 * f.numSlots

/-- The C struct `table_bucket_t`: entry count, total byte size of the concatenated
records, and the records themselves. -/
structure Bucket where
  numEntries : Nat
  sizeOfEntries : Nat
  entries : List FrameInfo
deriving DecidableEq, Repr, Inhabited

/-- The C struct `statepoint_table_t`. -/
structure StatepointTable where
  size : Nat
  buckets : List Bucket
deriving DecidableEq, Repr, Inhabited

/-! ## Hash table (`hash_table.c`) -/

def U64 : Nat := 2 ^ 64

def U32 : Nat := 2 ^ 32

def U16 : Nat := 2 ^ 16

/-- Translation of `hashFn` (hash_table.c:12): one round of xorshift64*, translated
operation for operation; every intermediate stays a 64-bit value. -/
def hashFn (x0 : Nat) : Nat :=
  let x := x0 % U64
  let x := x ^^^ (x >>> 12)
  let x := x ^^^ ((x <<< 25) % U64)
  let x := x ^^^ (x >>> 27)
  (x * 2685821657736338717) % U64

/-- The hash mix as §4.2 of the spec writes it, with the shifts spelled
out arithmetically: `x >> n` is division by `2^n`, `x << n` is
multiplication by `2^n` in 64-bit wrap-around arithmetic. -/
def spec_hash (x0 : Nat) : Nat :=
  let x := x0 % U64
  let x := Nat.xor x (x / 2 ^ 12)
  let x := Nat.xor x ((x * 2 ^ 25) % U64)
  let x := Nat.xor x (x / 2 ^ 27)
  (x * 2685821657736338717) % U64

/-- Translation of `computeBucketIndex` (hash_table.c:20). -/
def computeBucketIndex (table : StatepointTable) (key : Nat) : Nat :=
  hashFn key % table.size

def emptyBucket : Bucket := { numEntries := 0, sizeOfEntries := 0, entries := [] }

/-- Translation of `new_table` (hash_table.c:27).  The C computes
`uint64_t numBuckets = (expectedElms / loadFactor) + 1;` — a `float`
division whose result is truncated toward zero by the conversion to
`uint64_t`.  The load factor is modelled as an exact rational; for
positive operands truncation toward zero is `Int.floor`. -/
def new_table (loadFactor : Rat) (expectedElms : Nat) : StatepointTable :=
  let numBuckets : Nat := (⌊(expectedElms : Rat) / loadFactor⌋).toNat + 1
  { size := numBuckets, buckets := List.replicate numBuckets emptyBucket }

/-- Bucket access `table->buckets[i]` (reads in the C are always at
`i < table->size`; out-of-range access is modelled by the default
bucket). -/
def bucketAt (table : StatepointTable) (i : Nat) : Bucket :=
  table.buckets.getD i emptyBucket

/-- The two branches of `insert_key` acting on the addressed bucket
(hash_table.c:69–94): a bucket whose entry count reads 0 takes
ownership of the single record (discarding whatever records the wrap
left behind, as the C's pointer overwrite does); otherwise the
record's bytes are appended after the existing records and the
bookkeeping fields updated.  The entry counter is a `uint16_t`, so the
collision-branch increment `bucket->numEntries += 1` (hash_table.c:93)
wraps mod `2^16`.  `sizeOfEntries` is a `size_t`; a bucket never holds
more than `2^16` records of under `2^20` bytes each, so that 64-bit
sum cannot wrap and stays exact. -/
def bucketInsert (bucket : Bucket) (value : FrameInfo) : Bucket :=
  if bucket.numEntries = 0 then
    { numEntries := 1, sizeOfEntries := frame_size value, entries := [value] }
  else
    { numEntries := (bucket.numEntries + 1) % U16,
      sizeOfEntries := bucket.sizeOfEntries + frame_size value,
      entries := bucket.entries ++ [value] }

/-- Translation of `insert_key` (hash_table.c:65). -/
def insert_key (table : StatepointTable) (key : Nat) (value : FrameInfo) :
    StatepointTable :=
  let idx := computeBucketIndex table key
  { table with buckets := table.buckets.set idx (bucketInsert (bucketAt table idx) value) }

/-- The scan loop of `lookup_return_address` (hash_table.c:105–110): at
most `bucketLimit` records are visited, advancing by `next_frame`. -/
def scanBucket : Nat → List FrameInfo → Nat → Option FrameInfo
  | 0, _, _ => none
  | _ + 1, [], _ => none
  | n + 1, e :: es, r => if e.retAddr = r then some e else scanBucket n es r

/-- Translation of `lookup_return_address` (hash_table.c:98).  The
scan bound is read through `uint16_t bucketLimit = bucket.numEntries;`
(hash_table.c:102), a 16-bit value. -/
def lookup_return_address (table : StatepointTable) (retAddr : Nat) :
    Option FrameInfo :=
  let bucket := bucketAt table (computeBucketIndex table retAddr)
  scanBucket (bucket.numEntries % U16) bucket.entries retAddr

/-! ## Diagnostic printing (`hash_table.c:115–154`)

Each `fprintf` call is modelled as one emitted string; the functions
return the list of emitted strings in order. -/

/-- Translation of `print_frame` (hash_table.c:134). -/
def print_frame (frame : FrameInfo) : List String :=
  ["return address: " ++ toString frame.retAddr ++ "\n",
   "frame size: " ++ toString frame.frameSize ++ "\n",
   "num live ptrs: " ++ toString frame.numSlots ++ "\n"]
  ++ (frame.slots.take frame.numSlots).enum.flatMap (fun p =>
      ["ptr slot #" ++ toString p.1 ++ " \x7b ",
       if p.2.kind < 0 then "kind: base ptr, "
       else "kind: ptr derived from slot #" ++ toString p.2.kind ++ ", ",
       "frame offset: " ++ toString p.2.offset ++ " \x7d\n"])

/-- Translation of `print_table` (hash_table.c:115).  NB the source initializes the
variable it prints as the byte size from `numEntries`, not
`sizeOfEntries` (hash_table.c:121:
`size_t sizeOfEntries = table->buckets[i].numEntries;`); the
translation reproduces that read. -/
def print_table (table : StatepointTable) : List String :=
  (List.range table.size).flatMap (fun i =>
    let bucket := bucketAt table i
    let numEntries := bucket.numEntries
    let sizeOfEntries := bucket.numEntries
    ["\n--- bucket #" ++ toString i ++ "---\n",
     "num entries: " ++ toString numEntries ++ ", ",
     "memory allocated (bytes): " ++ toString sizeOfEntries ++ "\n"]
    ++ (bucket.entries.take numEntries).enum.flatMap (fun p =>
        ("** frame #" ++ toString p.1 ++ "**\n") :: print_frame p.2))

/-! ## Stack-map decoder -/

/-- Location kinds of the statepoint stack-map format.  The decoder
only distinguishes `Constant` and `Indirect`. -/
inductive LocationKind where
  | Register | Direct | Indirect | Constant | ConstIndex | OtherKind
deriving DecidableEq, Repr, Inhabited

/-- The C struct `value_location_t`: the `kind` tag and the signed 32-bit `offset`
field of one location record (the remaining fields are never read by
the decoder). -/
structure ValueLocation where
  kind : LocationKind
  offset : Int
deriving DecidableEq, Repr, Inhabited

/-- Translation of `isBasePointer` (stackmap.c): the pair's two records agree on kind
and offset. -/
def isBasePointer (first second : ValueLocation) : Prop :=
  first.kind = second.kind ∧ first.offset = second.offset

instance (a b : ValueLocation) : Decidable (isBasePointer a b) := by
  unfold isBasePointer
  infer_instance

/-- Translation of `isIndirect` (stackmap.c). -/
def isIndirect (p : ValueLocation) : Prop := p.kind = LocationKind.Indirect

instance (a : ValueLocation) : Decidable (isIndirect a) := by
  unfold isIndirect
  infer_instance

/-- The C struct `function_info_t`: function address, stack size, and the number of
callsite records belonging to the function. -/
structure FunctionInfo where
  address : Nat
  stackSize : Nat
  callsiteCount : Nat
deriving DecidableEq, Repr, Inhabited

/-- One callsite of the stack map as the decoder sees it: the header's
`codeOffset` and `numLocations` fields, and `mem` — the sequence of
`value_location_t`-typed records reachable from the start of the
callsite's location array.  `mem` may extend beyond the
`numLocations` genuine records: the records after them are the
reinterpretation of whatever bytes follow the location array (liveout
header, liveout records, padding, the next callsite), which the C can
and does read through the same pointer. -/
structure CallsiteRecord where
  codeOffset : Nat
  numLocations : Nat
  mem : List ValueLocation
deriving DecidableEq, Repr, Inhabited

/-- Consecutive records grouped in twos: the `(base, derived)` pairs as
read by `locations` / `locations + 1` with a stride of 2. -/
def toPairs : List ValueLocation → List (ValueLocation × ValueLocation)
  | b :: d :: rest => (b, d) :: toPairs rest
  | _ => []

/-- Read `n` record pairs starting `start` records past the beginning
of the location array; `none` when that runs past the supplied
memory. -/
def readPairs (mem : List ValueLocation) (start n : Nat) :
    Option (List (ValueLocation × ValueLocation)) :=
  if start + 2 * n ≤ mem.length then some (toPairs ((mem.drop start).take (2 * n)))
  else none

/-- The indirectness check of pass 1 (stackmap.c:85): every record of
every visited pair must be an indirect stack slot, else the process
exits. -/
def allPairsIndirect (ps : List (ValueLocation × ValueLocation)) : Bool :=
  ps.all (fun p => decide (isIndirect p.1) && decide (isIndirect p.2))

/-- Pass 1 (stackmap.c:78–105): the pairs whose two records coincide
become base slots, `kind = −1`, in visit order. -/
def basePairs (ps : List (ValueLocation × ValueLocation)) : List PointerSlot :=
  (ps.filter (fun p => decide (isBasePointer p.1 p.2))).map
    (fun p => { kind := -1, offset := p.1.offset })

/-- The base-index search of pass 2 (stackmap.c:122–128): the first
index `k < numBasePtrs` whose emitted slot has the sought offset;
finding none exits the process. -/
def derivedSlot (bases : List PointerSlot) (p : ValueLocation × ValueLocation) :
    Option PointerSlot :=
  match bases.findIdx? (fun s => s.offset = p.1.offset) with
  | some k => some { kind := (k : Int), offset := p.2.offset }
  | none => none

/-- Pass 2 (stackmap.c:109–143) over the pairs it visits: coinciding
pairs are skipped as already processed, the rest become derived
slots. -/
def derivedSlots (bases : List PointerSlot) :
    List (ValueLocation × ValueLocation) → Option (List PointerSlot)
  | [] => some []
  | p :: ps =>
    if isBasePointer p.1 p.2 then derivedSlots bases ps
    else
      match derivedSlot bases p, derivedSlots bases ps with
      | some s, some rest => some (s :: rest)
      | _, _ => none

/-- Translation of `generate_frame_info` (stackmap.c).  The cursor arithmetic follows
the C pointer `locations` exactly: three leading constants, `numDeopt`
skipped records, then pass 1 reads the pairs at records
`[cursor, cursor + 2·numSlots)`.  The C never resets `locations`
between the passes (stackmap.c:80 and stackmap.c:110 both advance the
same pointer), so pass 2 reads the records at
`[cursor + 2·numSlots, cursor + 4·numSlots)` — the memory *after* the
pair region.  The running `numLocations` counter is a `uint16_t`; its
updates wrap mod `2^16`. -/
def generate_frame_info (callsite : CallsiteRecord) (fn : FunctionInfo) :
    Option FrameInfo :=
  match callsite.mem with
  | l0 :: l1 :: l2 :: _ =>
    if l0.kind = LocationKind.Constant ∧ l1.kind = LocationKind.Constant ∧
        l2.kind = LocationKind.Constant ∧ 0 ≤ l2.offset then
      let numDeopt := l2.offset.toNat
      let remaining :=
        (((callsite.numLocations : Int) - 3 - (numDeopt : Int)) % (2 ^ 16 : Int)).toNat
      if remaining &&& 2 = 0 then
        let numSlots := remaining / 2
        let cursor := 3 + numDeopt
        match readPairs callsite.mem cursor numSlots with
        | some pass1 =>
          if allPairsIndirect pass1 then
            let bases := basePairs pass1
            match readPairs callsite.mem (cursor + 2 * numSlots) numSlots with
            | some pass2 =>
              match derivedSlots bases pass2 with
              | some ds =>
                some { retAddr := fn.address + callsite.codeOffset,
                       frameSize := fn.stackSize,
                       numSlots := numSlots,
                       slots := bases ++ ds }
              | none => none
            | none => none
          else none
        | none => none
      else none
    else none
  | _ => none

/-! ## Callsite advancement (`next_callsite`)

Pure address arithmetic; the record widths live in the repository's
`stackmap.h`, which is not under `src/`. -/

/-- Modelled from the spec: `sizeof(callsite_header_t)` — §4.1 gives
`codeOffset : u32, flags : u16, numLocations : u16`. -/
def callsiteHeaderSize : Nat := 8

/-- Modelled from the spec: `sizeof(value_location_t)` — §4.1 requires
at least a kind tag and an `i32` offset; the statepoint convention
packs them in 8 bytes. -/
def valueLocationSize : Nat := 8

/-- Modelled from the spec: `sizeof(liveout_header_t)` — §4.1 gives
`padding : u16, numLiveouts : u16`. -/
def liveoutHeaderSize : Nat := 4

/-- Modelled from the spec: `sizeof(liveout_location_t)` — a smaller
fixed-width record, 4 bytes in the statepoint convention. -/
def liveoutLocationSize : Nat := 4

/-- The 8-byte realignment of `next_callsite` (stackmap.c:163–164):
`ptr_val = (ptr_val + 7) & ~0x7` on a `uint64_t`. -/
def align8 (x : Nat) : Nat := ((x + 7) % U64) &&& (U64 - 8)

/-- Translation of `next_callsite` (stackmap.c:148), as a function of the callsite's
address and of the two counts the C reads from memory
(`callsite->numLocations` and the liveout header's `numLiveouts`). -/
def next_callsite (addr numLocations numLiveouts : Nat) : Nat :=
  let locations := addr + callsiteHeaderSize + numLocations * valueLocationSize
  let liveouts := locations + liveoutHeaderSize + numLiveouts * liveoutLocationSize
  align8 liveouts

/-- Modelled from the spec: steps (a)–(d) of §4.1's callsite
advancement — skip `numLocations` locations past the header, read the
liveout header, skip `numLiveouts` liveout records, round the result up
to the next multiple of 8 (here: the least multiple of 8 not below
it). -/
def spec_next_callsite (addr numLocations numLiveouts : Nat) : Nat :=
  let afterLocations := addr + callsiteHeaderSize + numLocations * valueLocationSize
  let afterLiveouts := afterLocations + liveoutHeaderSize + numLiveouts * liveoutLocationSize
  8 * ((afterLiveouts + 7) / 8)

/-! ## Table generation (`generate_table`) -/

/-- The stack map as structured data: the function records and the
callsite records in file order.  (`numRecords` is the length of
`callsites`; the constant pool is skipped by address arithmetic and
carries no decoded information.) -/
structure StackMap where
  functions : List FunctionInfo
  callsites : List CallsiteRecord
deriving Repr, Inhabited

/-- The loop of `generate_table` (stackmap.c:187–198).  The C walks
`currentFn` as a pointer into the function array; the pointer is the
suffix of the function list whose head is the current function
(`currentFn++` = `tail`).  On `visited >= currentFn->callsiteCount`
the function is advanced and the counter reset before decoding; the
counter is then incremented, so the recursive call passes the
incremented counter (reset to 0 first after an advance).  `visited` is
a `uint32_t` (stackmap.c:185), so the increment `visited++` wraps mod
`2^32`. -/
def generate_table_go :
    List FunctionInfo → Nat → List CallsiteRecord → StatepointTable →
    Option StatepointTable
  | _, _, [], table => some table
  | fns, visited, cs :: rest, table =>
    if visited ≥ (fns.headD default).callsiteCount then
      match generate_frame_info cs (fns.tail.headD default) with
      | some info =>
        generate_table_go fns.tail ((0 + 1) % U32) rest (insert_key table info.retAddr info)
      | none => none
    else
      match generate_frame_info cs (fns.headD default) with
      | some info =>
        generate_table_go fns ((visited + 1) % U32) rest (insert_key table info.retAddr info)
      | none => none

/-- Translation of `generate_table` (stackmap.c:169). -/
def generate_table (map : StackMap) (load_factor : Rat) : Option StatepointTable :=
  generate_table_go map.functions 0 map.callsites
    (new_table load_factor map.callsites.length)

/-- Modelled from the spec: the function whose cumulative
`callsiteCount` range contains position `j` — callsite `j` belongs to
function `i` when `S i ≤ j < S (i+1)` for the prefix sums `S` of the
counts. -/
def spec_attribution : List FunctionInfo → Nat → FunctionInfo
  | [], _ => default
  | f :: fs, j => if j < f.callsiteCount then f else spec_attribution fs (j - f.callsiteCount)

/-- The spec-side table construction: callsite `j` is decoded against
`spec_attribution functions j`. -/
def spec_table_go :
    List FunctionInfo → Nat → List CallsiteRecord → StatepointTable →
    Option StatepointTable
  | _, _, [], table => some table
  | fns, j, cs :: rest, table =>
    match generate_frame_info cs (spec_attribution fns j) with
    | some info => spec_table_go fns (j + 1) rest (insert_key table info.retAddr info)
    | none => none

/-! ## Helper notions for the statements and proofs -/

/-- A fresh table of `n` empty buckets.  `new_table` always returns
`mkTable numBuckets` for its computed bucket count. -/
def mkTable (n : Nat) : StatepointTable :=
  { size := n, buckets := List.replicate n emptyBucket }

/-- One step of table construction: `insert_key(table, f->retAddr, f)`,
exactly the call `generate_table` makes for every decoded frame. -/
def buildStep (table : StatepointTable) (f : FrameInfo) : StatepointTable :=
  insert_key table f.retAddr f

/-- The table obtained by inserting the frames of `fs`, in order, each
under its own return address, into a fresh table of `n` buckets. -/
def buildTable (n : Nat) (fs : List FrameInfo) : StatepointTable :=
  fs.foldl buildStep (mkTable n)

/-- The bucket reached from the empty bucket by the insertion sequence
`l`. -/
def bucketOf (l : List FrameInfo) : Bucket :=
  l.foldl bucketInsert emptyBucket

/-- The bucket contents an insertion sequence `l` is intended to
produce: the records concatenated in order with exact bookkeeping.
`bucketOf l` coincides with it exactly while `l` holds fewer than
`2^16` records, i.e. while the `u16` entry counter has not wrapped. -/
def bucketFor (l : List FrameInfo) : Bucket :=
  { numEntries := l.length, sizeOfEntries := (l.map frame_size).sum, entries := l }

/-- The first byte past a callsite's liveout records (before the 8-byte
realignment). -/
def callsiteEnd (addr numLocations numLiveouts : Nat) : Nat :=
  addr + callsiteHeaderSize + numLocations * valueLocationSize +
    liveoutHeaderSize + numLiveouts * liveoutLocationSize

/-- Claim C1's property of a table built from the frame list `fs`:
lookup finds every inserted frame field-for-field, and misses report
the not-found sentinel. -/
def C1Prop (n : Nat) (fs : List FrameInfo) : Prop :=
  (∀ f ∈ fs, lookup_return_address (buildTable n fs) f.retAddr = some f) ∧
  (∀ r : Nat, (∀ f ∈ fs, f.retAddr ≠ r) → lookup_return_address (buildTable n fs) r = none)

/-- Claim C8's property: the built table equals the table built with
the spec-side cumulative-range function attribution, and every frame
the decoder emits carries `retAddr = fn.address + callsite.codeOffset`
and `frameSize = fn.stackSize` for the function it was decoded
against. -/
def C8Prop (map : StackMap) (lf : Rat) : Prop :=
  generate_table map lf =
    spec_table_go map.functions 0 map.callsites (new_table lf map.callsites.length) ∧
  ∀ cs fn frame, generate_frame_info cs fn = some frame →
    frame.retAddr = fn.address + cs.codeOffset ∧ frame.frameSize = fn.stackSize

/-- Claim C10's bookkeeping invariant for bucket `i` of a table built
from `fs`, together with the append behaviour of one further
insertion under an arbitrary key `k`. -/
def C10Prop (n : Nat) (fs : List FrameInfo) (i k : Nat) (v : FrameInfo) : Prop :=
  (bucketAt (buildTable n fs) i).numEntries =
    (fs.filter (fun f => decide (hashFn f.retAddr % n = i))).length ∧
  (bucketAt (buildTable n fs) i).sizeOfEntries =
    ((fs.filter (fun f => decide (hashFn f.retAddr % n = i))).map frame_size).sum ∧
  (bucketAt (buildTable n fs) i).entries =
    fs.filter (fun f => decide (hashFn f.retAddr % n = i)) ∧
  (bucketAt (insert_key (buildTable n fs) k v) (hashFn k % n)).entries =
    (bucketAt (buildTable n fs) (hashFn k % n)).entries ++ [v] ∧
  (i ≠ hashFn k % n →
    bucketAt (insert_key (buildTable n fs) k v) i = bucketAt (buildTable n fs) i)

/-! ## Concrete inputs used by the evaluation theorems and witnesses -/

/-- A `Constant`-kind location record. -/
def locConst : ValueLocation := { kind := LocationKind.Constant, offset := 0 }

/-- An `Indirect`-kind location record at frame offset `o`. -/
def locInd (o : Int) : ValueLocation := { kind := LocationKind.Indirect, offset := o }

/-- A function at address 4096 with a 64-byte frame and one callsite. -/
def fnEx : FunctionInfo := { address := 4096, stackSize := 64, callsiteCount := 1 }

/-- A callsite whose tracked-pointer region, after the three constants,
holds a single location: the remaining count is 1 (odd). -/
def csOddCount : CallsiteRecord :=
  { codeOffset := 4, numLocations := 4,
    mem := [locConst, locConst, locConst, locInd (-8)] }

/-- A callsite with exactly one `(base, derived)` pair of indirect
locations: the remaining count is 2 (even) — the spec's scenario 1. -/
def csEvenCount : CallsiteRecord :=
  { codeOffset := 4, numLocations := 5,
    mem := [locConst, locConst, locConst, locInd (-8), locInd (-8)] }

/-- A well-formed callsite with one base pair `(-8, -8)` and one derived
pair `(-8, -4)` (the spec's scenario 2).  The four records after the
pair region — the reinterpretation of the bytes that follow it — happen
to read as two coinciding pairs. -/
def csMissingDerived : CallsiteRecord :=
  { codeOffset := 32, numLocations := 7,
    mem := [locConst, locConst, locConst,
            locInd (-8), locInd (-8), locInd (-8), locInd (-4),
            locInd (-16), locInd (-16), locInd (-16), locInd (-16)] }

/-- The frame the decoder emits for `csMissingDerived`. -/
def frameMissingDerived : FrameInfo :=
  { retAddr := 4128, frameSize := 64, numSlots := 2,
    slots := [{ kind := -1, offset := -8 }] }

/-- The same well-formed callsite as `csMissingDerived`, but the memory
after the pair region reads as a non-coinciding pair whose first record
has offset −8 followed by a coinciding pair. -/
def csGarbageDerived : CallsiteRecord :=
  { codeOffset := 32, numLocations := 7,
    mem := [locConst, locConst, locConst,
            locInd (-8), locInd (-8), locInd (-8), locInd (-4),
            locInd (-8), locInd (-999), locInd (-16), locInd (-16)] }

/-- The frame the decoder emits for `csGarbageDerived`. -/
def frameGarbageDerived : FrameInfo :=
  { retAddr := 4128, frameSize := 64, numSlots := 2,
    slots := [{ kind := -1, offset := -8 }, { kind := 0, offset := -999 }] }

/-- A callsite with three constants and no tracked-pointer pairs. -/
def csTrivial (o : Nat) : CallsiteRecord :=
  { codeOffset := o, numLocations := 3, mem := [locConst, locConst, locConst] }

/-- A two-function stack map, one trivial callsite each. -/
def mapEx : StackMap :=
  { functions := [{ address := 4096, stackSize := 64, callsiteCount := 1 },
                  { address := 8192, stackSize := 32, callsiteCount := 1 }],
    callsites := [csTrivial 32, csTrivial 48] }

/-- A one-slot frame keyed 1; its record occupies
`frame_size = 24 + 8 = 32` bytes. -/
def framePrint : FrameInfo :=
  { retAddr := 1, frameSize := 64, numSlots := 1,
    slots := [{ kind := -1, offset := -8 }] }

/-- A one-bucket table holding `framePrint`. -/
def tablePrint : StatepointTable := insert_key (mkTable 1) 1 framePrint

/-- Frames for the table-correctness witnesses. -/
def frameA : FrameInfo :=
  { retAddr := 1, frameSize := 16, numSlots := 0, slots := [] }

def frameB : FrameInfo :=
  { retAddr := 2, frameSize := 32, numSlots := 1,
    slots := [{ kind := -1, offset := -16 }] }

def frameC : FrameInfo :=
  { retAddr := 3, frameSize := 48, numSlots := 0, slots := [] }

/-- A slotless frame with return address `a`. -/
def slimFrame (a : Nat) : FrameInfo :=
  { retAddr := a, frameSize := 0, numSlots := 0, slots := [] }

/-- `2^16` frames with distinct 64-bit return addresses `0..65535`.
Inserted into a one-bucket table they all land in bucket 0 and wrap
its `u16` entry counter to 0. -/
def fsBig : List FrameInfo := (List.range U16).map slimFrame

/-! ## Lemmas: hash-table structure -/

/-- One more insertion extends the insertion sequence of a bucket. -/
theorem bucketOf_append (l : List FrameInfo) (v : FrameInfo) :
    bucketOf (l ++ [v]) = bucketInsert (bucketOf l) v := by
  simp [bucketOf, List.foldl_append]

/-- The bucket reached by up to `2^16` insertions: the records are all
retained in order, the byte total is exact, and the `u16` entry counter
holds the record count reduced mod `2^16`. -/
theorem bucketOf_le :
    ∀ (l : List FrameInfo), l.length ≤ U16 →
      bucketOf l = { numEntries := l.length % U16,
                     sizeOfEntries := (l.map frame_size).sum,
                     entries := l } := by
  intro l
  induction l using List.reverseRecOn with
  | nil => intro h; rfl
  | append_singleton l v ih =>
    intro h
    have hl : l.length ≤ U16 := by
      simp only [List.length_append, List.length_cons] at h
      omega
    rw [bucketOf_append, ih hl]
    cases l with
    | nil => rfl
    | cons a as =>
      have hlt : as.length + 1 < U16 := by
        simp only [List.length_append, List.length_cons] at h
        omega
      have hinner : (as.length + 1) % U16 = as.length + 1 :=
        Nat.mod_eq_of_lt hlt
      have hne0 : (as.length + 1) % U16 ≠ 0 := by
        rw [hinner]
        omega
      simp [bucketInsert, hinner, hne0, Nat.add_assoc]

/-- Below the wrap, the reached bucket carries the intended exact
bookkeeping. -/
theorem bucketOf_eq_bucketFor (l : List FrameInfo) (h : l.length < U16) :
    bucketOf l = bucketFor l := by
  rw [bucketOf_le l (Nat.le_of_lt h), bucketFor, Nat.mod_eq_of_lt h]

/-- An insertion into an intact bucket appends its record after the
existing ones. -/
theorem bucketInsert_entries (l : List FrameInfo) (v : FrameInfo) :
    (bucketInsert (bucketFor l) v).entries = l ++ [v] := by
  cases l with
  | nil => rfl
  | cons a as => simp [bucketInsert, bucketFor]

theorem insert_key_size (t : StatepointTable) (k : Nat) (v : FrameInfo) :
    (insert_key t k v).size = t.size := rfl

theorem insert_key_length (t : StatepointTable) (k : Nat) (v : FrameInfo) :
    (insert_key t k v).buckets.length = t.buckets.length := by
  simp [insert_key]

/-- `insert_key` rewrites exactly the addressed bucket. -/
theorem bucketAt_insert_key (t : StatepointTable) (k : Nat) (v : FrameInfo) (i : Nat)
    (hlen : t.buckets.length = t.size) (hi : i < t.size) :
    bucketAt (insert_key t k v) i =
      if computeBucketIndex t k = i then bucketInsert (bucketAt t i) v
      else bucketAt t i := by
  unfold insert_key bucketAt
  simp only [List.getD_eq_getElem?_getD, List.getElem?_set]
  by_cases h : computeBucketIndex t k = i
  · subst h
    simp [show computeBucketIndex t k < t.buckets.length from by omega]
  · simp [h]

theorem foldl_buildStep_size :
    ∀ (fs : List FrameInfo) (t : StatepointTable),
      (fs.foldl buildStep t).size = t.size := by
  intro fs
  induction fs with
  | nil => intro t; rfl
  | cons f fs ih => intro t; rw [List.foldl_cons, ih]; rfl

theorem foldl_buildStep_length :
    ∀ (fs : List FrameInfo) (t : StatepointTable),
      (fs.foldl buildStep t).buckets.length = t.buckets.length := by
  intro fs
  induction fs with
  | nil => intro t; rfl
  | cons f fs ih =>
    intro t
    rw [List.foldl_cons, ih]
    exact insert_key_length t f.retAddr f

/-- Folding the construction step distributes over the buckets: bucket
`i` accumulates, in order, exactly the frames that hash to `i`. -/
theorem foldl_buildStep_bucketAt :
    ∀ (fs : List FrameInfo) (t : StatepointTable),
      t.buckets.length = t.size → ∀ i, i < t.size →
      bucketAt (fs.foldl buildStep t) i =
        (fs.filter (fun f => decide (hashFn f.retAddr % t.size = i))).foldl
          bucketInsert (bucketAt t i) := by
  intro fs
  induction fs with
  | nil => intro t hlen i hi; rfl
  | cons f fs ih =>
    intro t hlen i hi
    rw [List.foldl_cons]
    have hsz : (buildStep t f).size = t.size := rfl
    have hlen' : (buildStep t f).buckets.length = (buildStep t f).size := by
      rw [hsz, ← hlen]
      exact insert_key_length t f.retAddr f
    have hrec := ih (buildStep t f) hlen' i (by rw [hsz]; exact hi)
    rw [hrec, hsz]
    have hins := bucketAt_insert_key t f.retAddr f i hlen hi
    rw [List.filter_cons]
    by_cases h : hashFn f.retAddr % t.size = i
    · rw [if_pos (by simpa using h)]
      rw [List.foldl_cons]
      have : bucketAt (buildStep t f) i = bucketInsert (bucketAt t i) f := by
        rw [show buildStep t f = insert_key t f.retAddr f from rfl, hins,
          if_pos (by exact h)]
      rw [this]
    · rw [if_neg (by simpa using h)]
      have : bucketAt (buildStep t f) i = bucketAt t i := by
        rw [show buildStep t f = insert_key t f.retAddr f from rfl, hins,
          if_neg (by exact h)]
      rw [this]

theorem bucketAt_mkTable (n i : Nat) : bucketAt (mkTable n) i = emptyBucket := by
  unfold bucketAt mkTable
  rw [List.getD_eq_getElem?_getD, List.getElem?_replicate]
  split <;> rfl

/-- The bucket characterization of a built table: bucket `i` is
reached by exactly the insertions that hash to `i`, in order. -/
theorem buildTable_bucketAt (n : Nat) (fs : List FrameInfo) (i : Nat) (hi : i < n) :
    bucketAt (buildTable n fs) i =
      bucketOf (fs.filter (fun f => decide (hashFn f.retAddr % n = i))) := by
  unfold buildTable
  rw [foldl_buildStep_bucketAt fs (mkTable n) (by simp [mkTable]) i hi,
    bucketAt_mkTable]
  rfl

/-- Below the wrap, bucket `i` of a built table carries the intended
exact bookkeeping of the frames that hash to it. -/
theorem buildTable_bucketAt_small (n : Nat) (fs : List FrameInfo) (i : Nat)
    (hi : i < n)
    (hcnt : (fs.filter (fun f => decide (hashFn f.retAddr % n = i))).length < U16) :
    bucketAt (buildTable n fs) i =
      bucketFor (fs.filter (fun f => decide (hashFn f.retAddr % n = i))) := by
  rw [buildTable_bucketAt n fs i hi, bucketOf_eq_bucketFor _ hcnt]

theorem buildTable_size (n : Nat) (fs : List FrameInfo) :
    (buildTable n fs).size = n :=
  foldl_buildStep_size fs (mkTable n)

theorem buildTable_length (n : Nat) (fs : List FrameInfo) :
    (buildTable n fs).buckets.length = n := by
  have h := foldl_buildStep_length fs (mkTable n)
  simpa [mkTable] using h

/-- The lookup scan finds the unique matching record. -/
theorem scanBucket_mem_eq_some :
    ∀ (l : List FrameInfo) (r : Nat) (f : FrameInfo),
      f ∈ l → f.retAddr = r → (∀ e ∈ l, e.retAddr = r → e = f) →
      scanBucket l.length l r = some f := by
  intro l
  induction l with
  | nil => intro r f hf; cases hf
  | cons a as ih =>
    intro r f hf hr huniq
    by_cases ha : a.retAddr = r
    · have haf : a = f := huniq a (List.mem_cons_self a as) ha
      subst haf
      simp [scanBucket, ha]
    · have hf' : f ∈ as := by
        rcases List.mem_cons.mp hf with h | h
        · exact absurd (h ▸ hr) ha
        · exact h
      simp only [scanBucket, List.length_cons, if_neg ha]
      exact ih r f hf' hr (fun e he hee => huniq e (List.mem_cons_of_mem a he) hee)

/-- The lookup scan misses when no record matches. -/
theorem scanBucket_eq_none :
    ∀ (l : List FrameInfo) (r : Nat),
      (∀ e ∈ l, e.retAddr ≠ r) → scanBucket l.length l r = none := by
  intro l
  induction l with
  | nil => intro r _; rfl
  | cons a as ih =>
    intro r hne
    simp only [scanBucket, List.length_cons,
      if_neg (hne a (List.mem_cons_self a as))]
    exact ih r (fun e he => hne e (List.mem_cons_of_mem a he))

/-! ## Claim C1 -/

/-- Claim C1, counterexample: the claim as stated fails for an
insertion sequence of `2^16` frames with distinct 64-bit return
addresses into a one-bucket table.  The bucket's `u16` entry counter
(hash_table.c:93) wraps to 0, so the lookup scan bound read through
`uint16_t bucketLimit` (hash_table.c:102) is 0 and every lookup of an
inserted frame returns the not-found sentinel. -/
theorem c1_insert_lookup_counterexample : ¬ C1Prop 1 fsBig := by
  intro h
  have hmem : slimFrame 0 ∈ fsBig := by
    exact List.mem_map_of_mem slimFrame (List.mem_range.mpr (by norm_num [U16]))
  have hlen : fsBig.length = U16 := by simp [fsBig]
  have hfilter : fsBig.filter (fun f => decide (hashFn f.retAddr % 1 = 0)) = fsBig :=
    List.filter_eq_self.mpr (fun a _ => by simp [Nat.mod_one])
  have hbucket : bucketAt (buildTable 1 fsBig) 0 =
      { numEntries := 0, sizeOfEntries := (fsBig.map frame_size).sum,
        entries := fsBig } := by
    rw [buildTable_bucketAt 1 fsBig 0 (by omega), hfilter,
      bucketOf_le fsBig (by rw [hlen]), hlen, Nat.mod_self]
  have hlook := h.1 (slimFrame 0) hmem
  rw [show (slimFrame 0).retAddr = 0 from rfl] at hlook
  unfold lookup_return_address at hlook
  rw [show computeBucketIndex (buildTable 1 fsBig) 0 = 0 from by
      rw [computeBucketIndex, buildTable_size]; exact Nat.mod_one _] at hlook
  rw [hbucket] at hlook
  exact Option.noConfusion hlook

/-- Claim C1, amended: for every built table and every frame inserted
under its own return address — all inserted `retAddr` values distinct
64-bit values, and each bucket receiving fewer than `2^16` frames so
that its `u16` entry counter does not wrap — `lookup_return_address`
at an inserted frame's `retAddr` returns that frame field-for-field,
and at any other return address it returns the not-found sentinel
`none`. -/
theorem c1_insert_lookup (n : Nat) (fs : List FrameInfo) (hn : 0 < n)
    (h64 : ∀ f ∈ fs, f.retAddr < U64)
    (hdist : (fs.map FrameInfo.retAddr).Nodup)
    (hbound : ∀ i, i < n →
      (fs.filter (fun f => decide (hashFn f.retAddr % n = i))).length < U16) :
    C1Prop n fs := by
  have hsize : (buildTable n fs).size = n := buildTable_size n fs
  constructor
  · intro f hf
    have hidx : hashFn f.retAddr % n < n := Nat.mod_lt _ hn
    show lookup_return_address (buildTable n fs) f.retAddr = some f
    unfold lookup_return_address
    have hcb : computeBucketIndex (buildTable n fs) f.retAddr = hashFn f.retAddr % n := by
      rw [computeBucketIndex, hsize]
    rw [hcb, buildTable_bucketAt_small n fs (hashFn f.retAddr % n) hidx
      (hbound _ hidx)]
    show scanBucket (List.length _ % U16) _ f.retAddr = some f
    rw [Nat.mod_eq_of_lt (hbound _ hidx)]
    apply scanBucket_mem_eq_some
    · exact List.mem_filter.mpr ⟨hf, by simp⟩
    · rfl
    · intro e he heq
      exact List.inj_on_of_nodup_map hdist (List.mem_of_mem_filter he) hf heq
  · intro r hr
    have hidx : hashFn r % n < n := Nat.mod_lt _ hn
    show lookup_return_address (buildTable n fs) r = none
    unfold lookup_return_address
    have hcb : computeBucketIndex (buildTable n fs) r = hashFn r % n := by
      rw [computeBucketIndex, hsize]
    rw [hcb, buildTable_bucketAt_small n fs (hashFn r % n) hidx (hbound _ hidx)]
    show scanBucket (List.length _ % U16) _ r = none
    rw [Nat.mod_eq_of_lt (hbound _ hidx)]
    exact scanBucket_eq_none _ r (fun e he => hr e (List.mem_of_mem_filter he))

/-- Witness for the amended C1 at a concrete table: three buckets, two
frames with distinct 64-bit return addresses, well below the wrap. -/
theorem c1_insert_lookup_witness :
    0 < 3 ∧ (∀ f ∈ [frameA, frameB], f.retAddr < U64) ∧
      (([frameA, frameB].map FrameInfo.retAddr).Nodup) ∧
      (∀ i, i < 3 →
        ([frameA, frameB].filter
          (fun f => decide (hashFn f.retAddr % 3 = i))).length < U16) ∧
      C1Prop 3 [frameA, frameB] :=
  ⟨by decide, by decide, by decide, by decide,
    c1_insert_lookup 3 [frameA, frameB] (by decide) (by decide) (by decide)
      (by decide)⟩

/-! ## Claim C10 -/

/-- Claim C10, counterexample: the claim as stated fails after `2^16`
insertions into a one-bucket table — the bucket holds `2^16` records
but its `u16` entry counter (hash_table.c:93) has wrapped to 0, so
`numEntries` does not equal the number of frames inserted. -/
theorem c10_bucket_bookkeeping_counterexample : ¬ C10Prop 1 fsBig 0 0 frameA := by
  intro h
  have hlen : fsBig.length = U16 := by simp [fsBig]
  have hfilter : fsBig.filter (fun f => decide (hashFn f.retAddr % 1 = 0)) = fsBig :=
    List.filter_eq_self.mpr (fun a _ => by simp [Nat.mod_one])
  have hbucket : bucketAt (buildTable 1 fsBig) 0 =
      { numEntries := 0, sizeOfEntries := (fsBig.map frame_size).sum,
        entries := fsBig } := by
    rw [buildTable_bucketAt 1 fsBig 0 (by omega), hfilter,
      bucketOf_le fsBig (by rw [hlen]), hlen, Nat.mod_self]
  have h1 := h.1
  rw [hbucket, hfilter, hlen] at h1
  simp only [U16] at h1
  omega

/-- Claim C10, amended: after any sequence of insertions into a fresh
table in which each bucket receives fewer than `2^16` frames (so its
`u16` entry counter does not wrap), every bucket's `numEntries` is the
number of frames inserted into it, its `sizeOfEntries` is the sum of
the `frame_size`s of those frames, its records sit in insertion order,
and a further insertion appends its record after the existing ones,
leaving previously stored records and all other buckets unchanged. -/
theorem c10_bucket_bookkeeping (n : Nat) (fs : List FrameInfo) (i k : Nat)
    (v : FrameInfo) (hi : i < n)
    (hbound : ∀ j, j < n →
      (fs.filter (fun f => decide (hashFn f.retAddr % n = j))).length < U16) :
    C10Prop n fs i k v := by
  have hn : 0 < n := Nat.lt_of_le_of_lt (Nat.zero_le i) hi
  have hidx : hashFn k % n < n := Nat.mod_lt _ hn
  have hsize : (buildTable n fs).size = n := buildTable_size n fs
  have hlen : (buildTable n fs).buckets.length = (buildTable n fs).size := by
    rw [hsize]; exact buildTable_length n fs
  have hcb : computeBucketIndex (buildTable n fs) k = hashFn k % n := by
    rw [computeBucketIndex, hsize]
  have hb := buildTable_bucketAt_small n fs i hi (hbound _ hi)
  have hbk := buildTable_bucketAt_small n fs (hashFn k % n) hidx (hbound _ hidx)
  refine ⟨by rw [hb]; rfl, by rw [hb]; rfl, by rw [hb]; rfl, ?_, ?_⟩
  · have hins := bucketAt_insert_key (buildTable n fs) k v (hashFn k % n) hlen
      (by rw [hsize]; exact hidx)
    rw [hins, if_pos hcb, hbk, bucketInsert_entries]
    rfl
  · intro hne
    have hins := bucketAt_insert_key (buildTable n fs) k v i hlen
      (by rw [hsize]; exact hi)
    rw [hins, if_neg (fun hc => hne (by rw [← hc]; exact hcb))]

/-- Witness for the amended C10 at a concrete table: two buckets, two
inserted frames (well below the wrap), then one further insertion
under key 5. -/
theorem c10_bucket_bookkeeping_witness :
    0 < 2 ∧
      (∀ j, j < 2 →
        ([frameA, frameB].filter
          (fun f => decide (hashFn f.retAddr % 2 = j))).length < U16) ∧
      C10Prop 2 [frameA, frameB] 0 5 frameC :=
  ⟨by decide, by decide,
    c10_bucket_bookkeeping 2 [frameA, frameB] 0 5 frameC (by decide) (by decide)⟩

/-! ## Claim C4 -/

/-- Claim C4, counterexample: The claim asserts `⌈E/α⌉ + 1` buckets; at
`E = 1`, `α = 2` the code allocates `⌊1/2⌋ + 1 = 1` bucket, not
`⌈1/2⌉ + 1 = 2`.  (At these operands the C `float` division is exact,
so the rational model coincides with the code.) -/
theorem c4_bucket_count_counterexample :
    (new_table 2 1).size ≠ (⌈(1 : Rat) / 2⌉).toNat + 1 := by
  have h1 : (new_table 2 1).size = 1 := by
    simp [new_table]
    norm_num
  have h2 : (⌈(1 : Rat) / 2⌉).toNat + 1 = 2 := by
    have : ⌈(1 : Rat) / 2⌉ = 1 := by
      rw [Int.ceil_eq_iff]
      norm_num
    rw [this]
    rfl
  rw [h1, h2]
  decide

/-- Claim C4, amended: For all `E > 0` and load factors `α > 0`,
`new_table` allocates exactly `⌊E / α⌋ + 1` buckets (the C truncates
the positive quotient toward zero), all initially empty. -/
theorem c4_bucket_count_amended (lf : Rat) (E : Nat) (hlf : 0 < lf) (hE : 0 < E) :
    (new_table lf E).size = (⌊(E : Rat) / lf⌋).toNat + 1 ∧
    (new_table lf E).buckets.length = (new_table lf E).size ∧
    ∀ b ∈ (new_table lf E).buckets, b = emptyBucket := by
  refine ⟨rfl, by simp [new_table], ?_⟩
  intro b hb
  exact List.eq_of_mem_replicate hb

/-- Witness for the amended C4 at `α = 2`, `E = 1`. -/
theorem c4_bucket_count_amended_witness :
    0 < (2 : Rat) ∧ 0 < 1 ∧
      ((new_table 2 1).size = (⌊(1 : Rat) / 2⌋).toNat + 1 ∧
        (new_table 2 1).buckets.length = (new_table 2 1).size ∧
        ∀ b ∈ (new_table 2 1).buckets, b = emptyBucket) := by
  refine ⟨by norm_num, by norm_num, ?_⟩
  have h := c4_bucket_count_amended 2 1 (by norm_num) (by norm_num)
  simpa using h

/-! ## Claim C6 -/

/-- Claim C6: For every 64-bit key and table of positive size, the bucket
index is the xorshift64* mix of the key — computed verbatim as
`x ^= x >> 12; x ^= x << 25; x ^= x >> 27; x *= 2685821657736338717`
in 64-bit wrap-around arithmetic — reduced modulo the bucket count; the
hash is a pure function of the key. -/
theorem c6_hash_spec (t : StatepointTable) (k : Nat) (hs : 0 < t.size)
    (hk : k < U64) :
    computeBucketIndex t k = spec_hash k % t.size ∧ hashFn k = spec_hash k := by
  have h : hashFn k = spec_hash k := by
    simp only [hashFn, spec_hash, Nat.shiftRight_eq_div_pow, Nat.shiftLeft_eq]
    rfl
  exact ⟨by rw [computeBucketIndex, h], h⟩

/-- Witness for C6 on a 7-bucket table at key 123. -/
theorem c6_hash_spec_witness :
    0 < (mkTable 7).size ∧ 123 < U64 ∧
      (computeBucketIndex (mkTable 7) 123 = spec_hash 123 % (mkTable 7).size ∧
        hashFn 123 = spec_hash 123) :=
  ⟨by decide, by decide, c6_hash_spec (mkTable 7) 123 (by decide) (by decide)⟩

/-! ## Claim C7 -/

/-- Clearing the low three bits of a 64-bit value rounds it down to a
multiple of 8. -/
theorem land_mask_eight (x : Nat) (hx : x < U64) :
    x &&& (U64 - 8) = 8 * (x / 8) := by
  have hmask : U64 - 8 = (2 ^ 61 - 1) <<< 3 := by decide
  have h8 : 8 * (x / 8) = (x >>> 3) <<< 3 := by
    rw [Nat.shiftLeft_eq, Nat.shiftRight_eq_div_pow]
    norm_num
    exact Nat.mul_comm _ _
  rw [hmask, h8]
  apply Nat.eq_of_testBit_eq
  intro i
  rw [Nat.testBit_land, Nat.testBit_shiftLeft, Nat.testBit_shiftLeft,
    Nat.testBit_shiftRight, Nat.testBit_two_pow_sub_one]
  by_cases h3 : 3 ≤ i
  · have h33 : 3 + (i - 3) = i := by omega
    rw [h33]
    by_cases h64 : i < 64
    · simp [h3, show i - 3 < 61 from by omega]
    · have hbit : x.testBit i = false := by
        apply Nat.testBit_lt_two_pow
        calc x < U64 := hx
        _ ≤ 2 ^ i := Nat.pow_le_pow_right (by omega) (by omega)
      simp [hbit]
  · simp [show ¬(i ≥ 3) from h3]

/-- Claim C7: The next-callsite address computed by `next_callsite`
equals the spec's prescription: skip `numLocations` location records
past the header, skip the liveout header and `numLiveouts` liveout
records, and round the resulting address up to the next multiple of 8
(the least multiple of 8 not below it); in particular this holds when
`numLiveouts = 0`. -/
theorem c7_next_callsite (addr numLocations numLiveouts : Nat)
    (h : callsiteEnd addr numLocations numLiveouts + 7 < U64) :
    next_callsite addr numLocations numLiveouts =
      spec_next_callsite addr numLocations numLiveouts ∧
    spec_next_callsite addr numLocations numLiveouts % 8 = 0 ∧
    callsiteEnd addr numLocations numLiveouts ≤
      spec_next_callsite addr numLocations numLiveouts ∧
    spec_next_callsite addr numLocations numLiveouts <
      callsiteEnd addr numLocations numLiveouts + 8 := by
  have he : next_callsite addr numLocations numLiveouts =
      align8 (callsiteEnd addr numLocations numLiveouts) := rfl
  have hs : spec_next_callsite addr numLocations numLiveouts =
      8 * ((callsiteEnd addr numLocations numLiveouts + 7) / 8) := rfl
  constructor
  · rw [he, hs, align8, Nat.mod_eq_of_lt h,
      land_mask_eight (callsiteEnd addr numLocations numLiveouts + 7) h]
  · rw [hs]
    refine ⟨Nat.mul_mod_right 8 _, ?_, ?_⟩ <;> omega

/-- Witness for C7 at address 256, five locations, zero liveouts. -/
theorem c7_next_callsite_witness :
    callsiteEnd 256 5 0 + 7 < U64 ∧
      (next_callsite 256 5 0 = spec_next_callsite 256 5 0 ∧
        spec_next_callsite 256 5 0 % 8 = 0 ∧
        callsiteEnd 256 5 0 ≤ spec_next_callsite 256 5 0 ∧
        spec_next_callsite 256 5 0 < callsiteEnd 256 5 0 + 8) :=
  ⟨by decide, c7_next_callsite 256 5 0 (by decide)⟩

/-! ## Claim C3 -/

/-- Claim C3: The parity check `(numLocations & 2) == 0` tests bit 1, not
bit 0: a callsite whose tracked-pointer region holds 1 location (odd
count) passes the check and decodes to a frame with `numSlots = 0`,
while a callsite holding one well-formed pair (even count 2) makes the
assert fail and the decoder abort. -/
theorem c3_parity_check_bug :
    generate_frame_info csOddCount fnEx =
      some { retAddr := 4100, frameSize := 64, numSlots := 0, slots := [] } ∧
    generate_frame_info csEvenCount fnEx = none := by
  constructor <;> rfl

/-! ## Claim C2 -/

/-- Claim C2: A counter-evaluation of the decoder on a well-formed
callsite (one base pair `(-8,-8)`, one derived pair `(-8,-4)`): because
pass 2 re-reads the cursor that pass 1 left past the pair region, the
derived pair is never emitted — the frame reports `numSlots = 2` yet
only the single base slot was written, so the "remaining
`numSlots − B` slots" of the claim do not exist (in the C they are
uninitialized memory). -/
theorem c2_decoder_slot_invariant_bug :
    generate_frame_info csMissingDerived fnEx = some frameMissingDerived ∧
    frameMissingDerived.numSlots = 2 ∧
    frameMissingDerived.slots.length = 1 := by
  refine ⟨by rfl, rfl, rfl⟩

/-! ## Claim C5 -/

/-- Claim C5: A counter-evaluation of pass 2 on the same well-formed
callsite: the slot emitted for the derived pointer is built from the
records *after* the pair region, not from the callsite's derived pair —
its offset is −999 (the garbage record's), not −4 as the claim
requires. -/
theorem c5_derived_binding_bug :
    generate_frame_info csGarbageDerived fnEx = some frameGarbageDerived ∧
    frameGarbageDerived.slots ≠
      [{ kind := -1, offset := -8 }, { kind := 0, offset := -4 }] := by
  exact ⟨by rfl, by decide⟩

/-! ## Claim C9 -/

/-- **C9.** `print_table` on a one-bucket table holding one 32-byte
frame: the per-frame output carries `retAddr`, `frameSize`, `numSlots`
and the slot forms as required, but the figure printed as
"memory allocated (bytes)" is the entry count 1, not the bucket's
`sizeOfEntries = 32` — hash_table.c:121 reads `numEntries` into the
variable it prints as the byte size. -/
theorem c9_print_table_bug :
    (bucketAt tablePrint 0).sizeOfEntries = 32 ∧
    "memory allocated (bytes): 1\n" ∈ print_table tablePrint ∧
    "memory allocated (bytes): 32\n" ∉ print_table tablePrint ∧
    "num entries: 1, " ∈ print_table tablePrint ∧
    "return address: 1\n" ∈ print_table tablePrint ∧
    "frame size: 64\n" ∈ print_table tablePrint ∧
    "num live ptrs: 1\n" ∈ print_table tablePrint ∧
    "kind: base ptr, " ∈ print_table tablePrint ∧
    "frame offset: -8 \x7d\n" ∈ print_table tablePrint := by
  decide

/-! ## Claim C8 -/

/-- Every frame the decoder emits carries the return address and frame
size computed from the function it was decoded against. -/
theorem generate_frame_info_fields (cs : CallsiteRecord) (fn : FunctionInfo)
    (frame : FrameInfo) (h : generate_frame_info cs fn = some frame) :
    frame.retAddr = fn.address + cs.codeOffset ∧
      frame.frameSize = fn.stackSize := by
  simp only [generate_frame_info] at h
  repeat split at h
  any_goals exact Option.noConfusion h
  injection h with h
  subst h
  exact ⟨rfl, rfl⟩

/-- Once position `j` has passed the head function's whole callsite
range, attribution continues in the tail. -/
theorem spec_attribution_shift (f : FunctionInfo) (fns : List FunctionInfo)
    (j : Nat) (h : f.callsiteCount ≤ j) :
    spec_attribution (f :: fns) j = spec_attribution fns (j - f.callsiteCount) := by
  simp [spec_attribution, Nat.not_lt.mpr h]

/-- The spec-side fold, run from a position past the head function's
range, never visits the head function again. -/
theorem spec_table_go_shift :
    ∀ (css : List CallsiteRecord) (f : FunctionInfo) (fns : List FunctionInfo)
      (j : Nat) (t : StatepointTable), f.callsiteCount ≤ j →
      spec_table_go (f :: fns) j css t =
        spec_table_go fns (j - f.callsiteCount) css t := by
  intro css
  induction css with
  | nil => intro f fns j t h; rfl
  | cons cs rest ih =>
    intro f fns j t h
    simp only [spec_table_go, spec_attribution_shift f fns j h]
    cases hdec : generate_frame_info cs (spec_attribution fns (j - f.callsiteCount)) with
    | none => rfl
    | some info =>
      have hj : j + 1 - f.callsiteCount = (j - f.callsiteCount) + 1 := by omega
      show spec_table_go (f :: fns) (j + 1) rest (insert_key t info.retAddr info) =
        spec_table_go fns ((j - f.callsiteCount) + 1) rest (insert_key t info.retAddr info)
      rw [ih f fns (j + 1) _ (by omega), hj]

/-- The decoder's function-stepping loop computes the spec-side
cumulative-range attribution, provided every function has a positive
callsite count below `2^32` (so the `u32` visited counter never wraps)
and enough callsites remain within the functions' total. -/
theorem generate_table_go_eq_spec :
    ∀ (css : List CallsiteRecord) (fns : List FunctionInfo) (v : Nat)
      (t : StatepointTable),
      (∀ f ∈ fns, 0 < f.callsiteCount) →
      (∀ f ∈ fns, f.callsiteCount < U32) →
      v ≤ (fns.headD default).callsiteCount →
      css.length + v ≤ (fns.map FunctionInfo.callsiteCount).sum →
      generate_table_go fns v css t = spec_table_go fns v css t := by
  intro css
  induction css with
  | nil => intro fns v t _ _ _ _; rfl
  | cons cs rest ih =>
    intro fns v t hpos hcnt hvis hsum
    cases fns with
    | nil =>
      exfalso
      simp only [List.map_nil, List.sum_nil, List.length_cons] at hsum
      omega
    | cons f fns2 =>
      simp only [List.map_cons, List.sum_cons] at hsum
      simp only [List.headD_cons] at hvis
      by_cases hv : v ≥ f.callsiteCount
      · have hveq : v = f.callsiteCount := Nat.le_antisymm hvis hv
        cases fns2 with
        | nil =>
          exfalso
          simp only [List.map_nil, List.sum_nil, List.length_cons] at hsum
          omega
        | cons g fns3 =>
          have hg : 0 < g.callsiteCount := hpos g (by simp)
          have hattr : spec_attribution (f :: g :: fns3) v = g := by
            rw [spec_attribution_shift f (g :: fns3) v hv, hveq]
            simp [spec_attribution, hg]
          have hone1 : (0 + 1) % U32 = 1 := by norm_num [U32]
          simp only [generate_table_go, spec_table_go, List.headD_cons,
            List.tail_cons, if_pos (show v ≥ f.callsiteCount from hv), hattr,
            hone1]
          cases hdec : generate_frame_info cs g with
          | none => rfl
          | some info =>
            show generate_table_go (g :: fns3) 1 rest (insert_key t info.retAddr info) =
              spec_table_go (f :: g :: fns3) (v + 1) rest (insert_key t info.retAddr info)
            have hrec := ih (g :: fns3) 1 (insert_key t info.retAddr info)
              (fun x hx => hpos x (List.mem_cons_of_mem f hx))
              (fun x hx => hcnt x (List.mem_cons_of_mem f hx))
              (by simpa using hg)
              (by
                simp only [List.length_cons] at hsum
                omega)
            rw [hrec,
              spec_table_go_shift rest f (g :: fns3) (v + 1) _ (by omega)]
            have hone : v + 1 - f.callsiteCount = 1 := by omega
            rw [hone]
      · have hv' : v < f.callsiteCount := Nat.lt_of_not_le hv
        have hfcnt : f.callsiteCount < U32 := hcnt f (List.mem_cons_self f fns2)
        have hwrap : (v + 1) % U32 = v + 1 := Nat.mod_eq_of_lt (by omega)
        have hattr : spec_attribution (f :: fns2) v = f := by
          simp [spec_attribution, hv']
        simp only [generate_table_go, spec_table_go, List.headD_cons,
          if_neg hv, hattr, hwrap]
        cases hdec : generate_frame_info cs f with
        | none => rfl
        | some info =>
          show generate_table_go (f :: fns2) (v + 1) rest (insert_key t info.retAddr info) =
            spec_table_go (f :: fns2) (v + 1) rest (insert_key t info.retAddr info)
          exact ih (f :: fns2) (v + 1) _ hpos hcnt (by simpa using hv')
            (by simp only [List.map_cons, List.sum_cons]
                simp only [List.length_cons] at hsum
                omega)

/-- Claim C8: For a well-formed stack map — every function's
`callsiteCount` positive and below `2^32` (the width of the `u32`
visited counter), and no more callsites than the counts' total —
`generate_table` attributes every callsite to the function whose
cumulative `callsiteCount` range contains its position, and every
emitted frame has `retAddr = fn.address + callsite.codeOffset` and
`frameSize = fn.stackSize` for its function. -/
theorem c8_function_attribution (map : StackMap) (lf : Rat)
    (hpos : ∀ f ∈ map.functions, 0 < f.callsiteCount)
    (hcnt : ∀ f ∈ map.functions, f.callsiteCount < U32)
    (hsum : map.callsites.length ≤ (map.functions.map FunctionInfo.callsiteCount).sum) :
    C8Prop map lf := by
  constructor
  · exact generate_table_go_eq_spec map.callsites map.functions 0
      (new_table lf map.callsites.length) hpos hcnt (Nat.zero_le _) (by omega)
  · exact generate_frame_info_fields

/-- Witness for C8 on the two-function, two-callsite stack map. -/
theorem c8_function_attribution_witness :
    (∀ f ∈ mapEx.functions, 0 < f.callsiteCount) ∧
      (∀ f ∈ mapEx.functions, f.callsiteCount < U32) ∧
      mapEx.callsites.length ≤ (mapEx.functions.map FunctionInfo.callsiteCount).sum ∧
      C8Prop mapEx (1 / 2) :=
  ⟨by decide, by decide, by decide,
    c8_function_attribution mapEx (1 / 2) (by decide) (by decide) (by decide)⟩

end SPUtil
